import Mathlib

/-!
Shallow embedding of `src/src/EventModule.ts`: a typed publish/subscribe
layer over the browser's `window` event target, with a React hook
(`useEventListener`) that manages subscription lifecycle.

Modelling conventions:
* An event key is a JS symbol: an identity token (`sym`) carrying a
  human-readable description (`descr`).  `String(symbol)` — the name the
  code registers and dispatches under — depends only on the description.
* Handlers are opaque JS functions, represented by numeric identities;
  a handler invocation is recorded in a log together with the identity of
  the `handlerRef` cell through which it was invoked and the payload it
  received (payload passed as-is, no cloning or validation).
* `window`'s listener list is a list of registrations in registration
  order; `addEventListener` / `removeEventListener` follow DOM semantics
  (add is a no-op on an exact duplicate, remove erases the first match).
* The React lifecycle is driven by explicit transitions: a render of a
  component instance calling `useEventListener` (which mounts on first
  render, re-subscribes exactly when the `[eventKey, options]` deps
  change under `Object.is`, and overwrites the `handlerRef` cell), an
  unmount (effect cleanup), and an `emit`.
-/

namespace EventModule

/-- Listener options, modelling the `boolean | AddEventListenerOptions`
parameter (`undef` = argument omitted).  An options object has a
reference identity `ref` and value contents `content`; React's dependency
comparison (`Object.is`) sees only the reference. -/
inductive Opts where
  | undef : Opts
  | bool (b : Bool) : Opts
  | obj (ref : Nat) (content : String) : Opts
deriving DecidableEq

/-- The JS `Object.is` comparison on options: primitives by value,
objects by reference identity. -/
def objectIs : Opts → Opts → Bool
  | .undef, .undef => true
  | .bool a, .bool b => decide (a = b)
  | .obj r _, .obj r' _ => decide (r = r')
  | _, _ => false

/-- An event key: a JS symbol.  `sym` is the token identity (two symbols
are equal only if they are the same token), `descr` the description. -/
structure Key where
  sym : Nat
  descr : String
deriving DecidableEq

/-- The string the code actually uses on the wire: `String(eventKey)`
(lines 18 and 51 of the source).  For a symbol this is
`"Symbol(" + description + ")"` — it depends only on the description,
not on the token identity. -/
def keyString (k : Key) : String := "Symbol(" ++ k.descr ++ ")"

/-- One `window` listener registration: the identity `lid` of the
`eventListener` closure created in the effect (line 46), the stringified
event name, the identity of the `handlerRef` cell the closure
dereferences, and the options it was registered with. -/
structure LReg where
  lid : Nat
  name : String
  cellId : Nat
  opts : Opts
deriving DecidableEq

/-- A recorded handler invocation: which `handlerRef` cell was
dereferenced, which handler it contained, and the payload it was passed
(line 48: `handlerRef.current(customEvent.detail)`). -/
structure Entry (P : Type) where
  cellId : Nat
  handler : Nat
  payload : P
deriving DecidableEq

/-- The state of one mounted (`Active`) `useEventListener` instance:
its `handlerRef` cell identity, the key and options of the current
subscription, and the identity of the currently registered
`eventListener` closure. -/
structure ActiveSt where
  cellId : Nat
  key : Key
  opts : Opts
  lid : Nat
deriving DecidableEq

/-- Global state: the `window` listener list, the `handlerRef` cells
(cell identity → current handler), the invocation log, the mounted hook
instances (component instance id → active state), and a fresh-identity
counter. -/
structure Sys (P : Type) where
  bus : List LReg
  cells : List (Nat × Nat)
  log : List (Entry P)
  hooks : List (Nat × ActiveSt)
  next : Nat

/-- Look up a `handlerRef` cell's current handler. -/
def lookupCell (cid : Nat) : List (Nat × Nat) → Option Nat
  | [] => none
  | c :: cs => if c.1 = cid then some c.2 else lookupCell cid cs

/-- Overwrite a `handlerRef` cell in place (`handlerRef.current = handler`,
line 42). -/
def setCell (cid h : Nat) (cells : List (Nat × Nat)) : List (Nat × Nat) :=
  cells.map (fun c => if c.1 = cid then (cid, h) else c)

/-- Look up a mounted hook instance. -/
def lookupHook (hid : Nat) : List (Nat × ActiveSt) → Option ActiveSt
  | [] => none
  | q :: qs => if q.1 = hid then some q.2 else lookupHook hid qs

/-- Remove a hook instance's entry. -/
def eraseHook (hid : Nat) : List (Nat × ActiveSt) → List (Nat × ActiveSt)
  | [] => []
  | q :: qs => if q.1 = hid then qs else q :: eraseHook hid qs

/-- DOM matching of a registration: same event name, same listener
closure, same options. -/
def matchesReg (name : String) (lid : Nat) (o : Opts) (r : LReg) : Bool :=
  decide (r.name = name ∧ r.lid = lid ∧ r.opts = o)

/-- `window.addEventListener` (line 51): appends the registration unless
an exact duplicate is already present (DOM dedup; never triggered by the
hook because each effect run creates a fresh closure). -/
def addListener (bus : List LReg) (r : LReg) : List LReg :=
  if bus.any (matchesReg r.name r.lid r.opts) then bus else bus ++ [r]

/-- `window.removeEventListener` (line 54): erases the first matching
registration; a no-op when none matches. -/
def removeListener (bus : List LReg) (name : String) (lid : Nat) (o : Opts) : List LReg :=
  bus.eraseP (matchesReg name lid o)

/-- Delivery to one registration: the `eventListener` closure (lines
46–49) dereferences the `handlerRef` cell and invokes its content with
the event's `detail`; if the cell were empty the delivery would be
dropped silently. -/
def deliverOne (cells : List (Nat × Nat)) (p : P) (r : LReg) : Option (Entry P) :=
  match lookupCell r.cellId cells with
  | none => none
  | some h => some ⟨r.cellId, h, p⟩

/-- `window.dispatchEvent` of a `CustomEvent` named `name` carrying
`detail = p`: synchronously invokes, in registration order, every
listener registered under that name. -/
def dispatch (cells : List (Nat × Nat)) (name : String) (p : P) (bus : List LReg) :
    List (Entry P) :=
  (bus.filter (fun r => decide (r.name = name))).filterMap (deliverOne cells p)

/-- `emit` (source lines 16–24): builds a `CustomEvent` named
`String(eventKey)` with `detail = payload` and dispatches it on `window`.
The `console.log` diagnostic is non-contractual and not modelled. -/
def emitFn (k : Key) (p : P) (s : Sys P) : Sys P :=
  { s with log := s.log ++ dispatch s.cells (keyString k) p s.bus }

/-- The registration that an active hook instance owns on the bus. -/
def regOf (a : ActiveSt) : LReg := ⟨a.lid, keyString a.key, a.cellId, a.opts⟩

/-- One render of a component instance `hid` calling
`useEventListener (k, h, o)` (source lines 33–57).
First render (mount): `useRef` creates the cell holding `h`, the
subscription effect registers a fresh `eventListener` closure under
`String(k)`.  Re-render: the first effect overwrites the cell with `h`;
the subscription effect re-runs exactly when its `[eventKey, options]`
dependencies changed under `Object.is` — then its cleanup removes the old
registration and the effect registers a fresh closure under the new
key/options, reusing the same cell. -/
def hookRender (k : Key) (h : Nat) (o : Opts) (hid : Nat) (s : Sys P) : Sys P :=
  match lookupHook hid s.hooks with
  | none =>
      let cid := s.next
      let lid := s.next + 1
      { s with
        cells := s.cells ++ [(cid, h)]
        bus := addListener s.bus ⟨lid, keyString k, cid, o⟩
        hooks := s.hooks ++ [(hid, ⟨cid, k, o, lid⟩)]
        next := s.next + 2 }
  | some a =>
      if a.key = k ∧ objectIs a.opts o = true then
        { s with cells := setCell a.cellId h s.cells }
      else
        let a' : ActiveSt := ⟨a.cellId, k, o, s.next⟩
        { s with
          cells := setCell a.cellId h s.cells
          bus := addListener (removeListener s.bus (keyString a.key) a.lid a.opts) (regOf a')
          hooks := eraseHook hid s.hooks ++ [(hid, a')]
          next := s.next + 1 }

/-- Unmount of a component instance: the subscription effect's cleanup
(lines 53–55) removes the current registration. -/
def unmountHook (hid : Nat) (s : Sys P) : Sys P :=
  match lookupHook hid s.hooks with
  | none => s
  | some a =>
      { s with
        bus := removeListener s.bus (keyString a.key) a.lid a.opts
        hooks := eraseHook hid s.hooks }

/-- The external transitions that drive the system: a render of a hook
instance, an unmount, and an emission. -/
inductive Cmd (P : Type) where
  | render (hid : Nat) (k : Key) (h : Nat) (o : Opts) : Cmd P
  | unmount (hid : Nat) : Cmd P
  | emit (k : Key) (p : P) : Cmd P

/-- One transition. -/
def step (s : Sys P) : Cmd P → Sys P
  | .render hid k h o => hookRender k h o hid s
  | .unmount hid => unmountHook hid s
  | .emit k p => emitFn k p s

/-- Run a sequence of transitions. -/
def run (s : Sys P) (cs : List (Cmd P)) : Sys P := cs.foldl step s

/-- The initial state: no listeners, no cells, no mounted hooks. -/
def init (P : Type) : Sys P := ⟨[], [], [], [], 0⟩

/-- A state reachable from the initial state by some transition
sequence. -/
def Reachable (s : Sys P) : Prop := ∃ cs, s = run (init P) cs

/-- The registrations owned by the mounted hook instances, in order. -/
def hookRegs (s : Sys P) : List LReg := s.hooks.map (fun q => regOf q.2)

/-- Well-formedness of a state: the bus is exactly the mounted hooks'
registrations; component ids, closure ids and cell ids are unique;
all allocated ids are below the freshness counter; every mounted hook's
cell is present. -/
def Wf (s : Sys P) : Prop :=
  s.bus = hookRegs s ∧
  (s.hooks.map Prod.fst).Nodup ∧
  (s.hooks.map (fun q => q.2.lid)).Nodup ∧
  (s.hooks.map (fun q => q.2.cellId)).Nodup ∧
  (∀ q ∈ s.hooks, q.2.lid < s.next ∧ q.2.cellId < s.next) ∧
  (∀ q ∈ s.hooks, (lookupCell q.2.cellId s.cells).isSome = true) ∧
  (∀ c ∈ s.cells, c.1 < s.next)

instance decidableWf (s : Sys P) : Decidable (Wf s) := by
  unfold Wf
  infer_instance

/-- A handler cell is retired when no mounted hook owns it and it lies
below the freshness counter (so no future mount can reacquire it). -/
def Retired (cid : Nat) (s : Sys P) : Prop :=
  cid < s.next ∧ ∀ q ∈ s.hooks, q.2.cellId ≠ cid

/-- Modelled from the spec: the underlying transport's per-listener
isolation (spec sections 4.1 and 7).  `window.dispatchEvent` invokes each
listener in its own protected call: a listener whose handler throws has
the exception reported (collected in the second component) and dispatch
continues with the remaining listeners instead of aborting.  `throws`
says which handlers throw when invoked. -/
def dispatchIso (cells : List (Nat × Nat)) (throws : Nat → Bool) (name : String) (p : P) :
    List LReg → List (Entry P) × List Nat
  | [] => ([], [])
  | r :: rs =>
      if r.name = name then
        match lookupCell r.cellId cells with
        | none => dispatchIso cells throws name p rs
        | some h =>
            (⟨r.cellId, h, p⟩ :: (dispatchIso cells throws name p rs).1,
              if throws h = true then h :: (dispatchIso cells throws name p rs).2
              else (dispatchIso cells throws name p rs).2)
      else dispatchIso cells throws name p rs

/-- The record returned by `createEventModule` (source lines 91–94): an
`emit` and a `useListener` for one event map.  In the embedding, `emit`
is the state transformer of one emission and `useListener` the state
transformer of one render of the hook by component instance `hid`. -/
structure EventModuleOps (P : Type) where
  emit : Key → P → Sys P → Sys P
  useListener : Key → Nat → Opts → Nat → Sys P → Sys P

/-- `createEventModule` (source lines 65–95): `emitEvent` delegates to
the top-level `emit` and `useListener` to the top-level
`useEventListener`, both unchanged. -/
def createEventModule (P : Type) : EventModuleOps P where
  emit := fun k p s => emitFn k p s
  useListener := fun k h o hid s => hookRender k h o hid s

/-- The record returned by `createSimpleEventModule` (lines 106–109). -/
structure SimpleEventModuleOps (P : Type) where
  emit : P → Sys P → Sys P
  useListener : Nat → Nat → Sys P → Sys P

/-- `createSimpleEventModule` (source lines 104–110): obtains the pair
from `createEventModule` and pre-applies the single key; its
`useListener` passes no options argument. -/
def createSimpleEventModule (P : Type) (k : Key) : SimpleEventModuleOps P where
  emit := fun p => (createEventModule P).emit k p
  useListener := fun h => (createEventModule P).useListener k h Opts.undef

/-! Basic facts about the assoc-list and bus helpers. -/

theorem objectIs_refl (o : Opts) : objectIs o o = true := by
  cases o <;> simp [objectIs]

theorem lookupCell_eq_none (cid : Nat) (cells : List (Nat × Nat))
    (h : ∀ c ∈ cells, c.1 ≠ cid) : lookupCell cid cells = none := by
  induction cells with
  | nil => rfl
  | cons c cs ih =>
      simp only [lookupCell, if_neg (h c (List.mem_cons_self c cs))]
      exact ih (fun c' hc' => h c' (List.mem_cons_of_mem c hc'))

theorem lookupCell_append_some (cid : Nat) (cells l : List (Nat × Nat)) (v : Nat)
    (h : lookupCell cid cells = some v) : lookupCell cid (cells ++ l) = some v := by
  induction cells with
  | nil => simp [lookupCell] at h
  | cons c cs ih =>
      simp only [lookupCell] at h ⊢
      by_cases hc : c.1 = cid
      · simpa [hc] using h
      · rw [if_neg hc] at h ⊢
        exact ih h

theorem lookupCell_append_none (cid : Nat) (cells l : List (Nat × Nat))
    (h : lookupCell cid cells = none) : lookupCell cid (cells ++ l) = lookupCell cid l := by
  induction cells with
  | nil => rfl
  | cons c cs ih =>
      simp only [lookupCell] at h ⊢
      by_cases hc : c.1 = cid
      · simp [hc] at h
      · rw [if_neg hc] at h ⊢
        exact ih h

theorem lookupCell_setCell (cid' cid h : Nat) (cells : List (Nat × Nat)) :
    lookupCell cid' (setCell cid h cells) =
      if cid' = cid then (lookupCell cid cells).map (fun _ => h)
      else lookupCell cid' cells := by
  induction cells with
  | nil => by_cases hc : cid' = cid <;> simp [setCell, lookupCell, hc]
  | cons c cs ih =>
      simp only [setCell, List.map_cons] at ih ⊢
      by_cases h1 : c.1 = cid <;> by_cases h2 : cid' = cid
      · subst h2
        simp [lookupCell, h1]
      · have hne : ¬ cid = cid' := fun hh => h2 hh.symm
        simp [lookupCell, h1, hne, ih, h2]
      · subst h2
        simp [lookupCell, h1, ih]
      · by_cases h3 : c.1 = cid'
        · rw [if_neg h1, if_neg h2]
          simp only [lookupCell]
          rw [if_pos h3, if_pos h3]
        · rw [if_neg h1, if_neg h2]
          simp only [lookupCell]
          rw [if_neg h3, ih, if_neg h2, if_neg h3]

theorem lookupHook_eq_none_iff (hid : Nat) (L : List (Nat × ActiveSt)) :
    lookupHook hid L = none ↔ ∀ q ∈ L, q.1 ≠ hid := by
  induction L with
  | nil => simp [lookupHook]
  | cons q qs ih =>
      by_cases hq : q.1 = hid
      · simp [lookupHook, hq]
      · simp [lookupHook, hq, ih]

theorem lookupHook_some_decomp (hid : Nat) (L : List (Nat × ActiveSt)) (a : ActiveSt)
    (h : lookupHook hid L = some a) :
    ∃ l1 l2, L = l1 ++ (hid, a) :: l2 ∧ (∀ q ∈ l1, q.1 ≠ hid) ∧
      eraseHook hid L = l1 ++ l2 := by
  induction L with
  | nil => simp [lookupHook] at h
  | cons q qs ih =>
      obtain ⟨q1, q2⟩ := q
      by_cases hq : q1 = hid
      · subst hq
        simp only [lookupHook, if_pos] at h
        injection h with h
        subst h
        exact ⟨[], qs, by simp, by simp, by simp [eraseHook]⟩
      · have hq' : (q1, q2).1 = hid ↔ False := by simpa using hq
        simp only [lookupHook, hq', if_false] at h
        obtain ⟨l1, l2, hL, hl1, he⟩ := ih h
        refine ⟨(q1, q2) :: l1, l2, by simp [hL], ?_, ?_⟩
        · intro x hx
          rcases List.mem_cons.mp hx with hx | hx
          · simpa [hx] using hq
          · exact hl1 x hx
        · simp [eraseHook, hq, he]

theorem eraseP_middle {α : Type} (p : α → Bool) (xs ys : List α) (y : α)
    (h1 : ∀ x ∈ xs, p x = false) (h2 : p y = true) :
    (xs ++ y :: ys).eraseP p = xs ++ ys := by
  induction xs with
  | nil => simp [List.eraseP_cons, h2]
  | cons x xs ih =>
      simp only [List.cons_append, List.eraseP_cons, h1 x (List.mem_cons_self x xs)]
      simp only [cond_false, List.cons.injEq, true_and]
      exact ih (fun x' hx' => h1 x' (List.mem_cons_of_mem x hx'))

theorem matchesReg_regOf_self (a : ActiveSt) :
    matchesReg (keyString a.key) a.lid a.opts (regOf a) = true := by
  simp [matchesReg, regOf]

theorem matchesReg_false_of_lid (n : String) (lid : Nat) (o : Opts) (r : LReg)
    (h : r.lid ≠ lid) : matchesReg n lid o r = false := by
  simp only [matchesReg, decide_eq_false_iff_not]
  rintro ⟨-, hl, -⟩
  exact h hl

theorem addListener_of_fresh (bus : List LReg) (r : LReg)
    (h : ∀ r' ∈ bus, r'.lid ≠ r.lid) : addListener bus r = bus ++ [r] := by
  have hany : bus.any (matchesReg r.name r.lid r.opts) = false := by
    rw [List.any_eq_false]
    intro r' hr'
    simp [matchesReg_false_of_lid r.name r.lid r.opts r' (h r' hr')]
  simp [addListener, hany]

theorem eraseHook_sublist (hid : Nat) (L : List (Nat × ActiveSt)) :
    List.Sublist (eraseHook hid L) L := by
  induction L with
  | nil => simp [eraseHook]
  | cons q qs ih =>
      by_cases hq : q.1 = hid
      · simp only [eraseHook, if_pos hq]
        exact List.sublist_cons_self q qs
      · simp only [eraseHook, if_neg hq]
        exact ih.cons₂ q

theorem mem_eraseHook (hid : Nat) (L : List (Nat × ActiveSt)) (q : Nat × ActiveSt)
    (h : q ∈ eraseHook hid L) : q ∈ L :=
  (eraseHook_sublist hid L).mem h

theorem setCell_map_fst (cid h : Nat) (cells : List (Nat × Nat)) :
    (setCell cid h cells).map Prod.fst = cells.map Prod.fst := by
  induction cells with
  | nil => rfl
  | cons c cs ih =>
      simp only [setCell, List.map_cons] at ih ⊢
      by_cases hc : c.1 = cid
      · simp [hc, ih]
      · simp [hc, ih]

theorem isSome_lookupCell_setCell (cid' cid h : Nat) (cells : List (Nat × Nat)) :
    (lookupCell cid' (setCell cid h cells)).isSome = (lookupCell cid' cells).isSome := by
  rw [lookupCell_setCell]
  by_cases hc : cid' = cid
  · subst hc
    cases lookupCell cid' cells <;> simp
  · simp [hc]

theorem bus_lid_lt (s : Sys P) (hwf : Wf s) : ∀ r ∈ s.bus, r.lid < s.next := by
  intro r hr
  rw [hwf.1] at hr
  obtain ⟨q, hq, rfl⟩ := List.mem_map.mp hr
  exact (hwf.2.2.2.2.1 q hq).1

theorem removeListener_hookRegs (L : List (Nat × ActiveSt)) (hid : Nat) (a : ActiveSt)
    (hlook : lookupHook hid L = some a)
    (hnd : (L.map (fun q => q.2.lid)).Nodup) :
    removeListener (L.map (fun q => regOf q.2)) (keyString a.key) a.lid a.opts =
      (eraseHook hid L).map (fun q => regOf q.2) := by
  obtain ⟨l1, l2, hL, hl1, he⟩ := lookupHook_some_decomp hid L a hlook
  subst hL
  rw [he, List.map_append, List.map_cons, List.map_append]
  have hmid : (a.lid :: (l1.map (fun q => q.2.lid) ++ l2.map (fun q => q.2.lid))).Nodup := by
    apply List.nodup_middle.mp
    simpa using hnd
  have hnm : a.lid ∉ l1.map (fun q => q.2.lid) ++ l2.map (fun q => q.2.lid) :=
    (List.nodup_cons.mp hmid).1
  unfold removeListener
  apply eraseP_middle
  · intro x hx
    obtain ⟨q, hq, rfl⟩ := List.mem_map.mp hx
    apply matchesReg_false_of_lid
    intro hlid
    exact hnm (List.mem_append_left _ (List.mem_map.mpr ⟨q, hq, hlid⟩))
  · exact matchesReg_regOf_self a

/-! Unfolding equations for the lifecycle transitions. -/

theorem hookRender_mount (k : Key) (h : Nat) (o : Opts) (hid : Nat) (s : Sys P)
    (hlook : lookupHook hid s.hooks = none) :
    hookRender k h o hid s =
      { s with
        cells := s.cells ++ [(s.next, h)]
        bus := addListener s.bus ⟨s.next + 1, keyString k, s.next, o⟩
        hooks := s.hooks ++ [(hid, ⟨s.next, k, o, s.next + 1⟩)]
        next := s.next + 2 } := by
  simp only [hookRender, hlook]

theorem hookRender_update (k : Key) (h : Nat) (o : Opts) (hid : Nat) (s : Sys P) (a : ActiveSt)
    (hlook : lookupHook hid s.hooks = some a)
    (hk : a.key = k) (ho : objectIs a.opts o = true) :
    hookRender k h o hid s = { s with cells := setCell a.cellId h s.cells } := by
  simp only [hookRender, hlook]
  rw [if_pos ⟨hk, ho⟩]

theorem hookRender_resub (k : Key) (h : Nat) (o : Opts) (hid : Nat) (s : Sys P) (a : ActiveSt)
    (hlook : lookupHook hid s.hooks = some a)
    (hne : ¬(a.key = k ∧ objectIs a.opts o = true)) :
    hookRender k h o hid s =
      { s with
        cells := setCell a.cellId h s.cells
        bus := addListener (removeListener s.bus (keyString a.key) a.lid a.opts)
          (regOf ⟨a.cellId, k, o, s.next⟩)
        hooks := eraseHook hid s.hooks ++ [(hid, ⟨a.cellId, k, o, s.next⟩)]
        next := s.next + 1 } := by
  simp only [hookRender, hlook]
  rw [if_neg hne]

theorem unmountHook_none (hid : Nat) (s : Sys P) (hlook : lookupHook hid s.hooks = none) :
    unmountHook hid s = s := by
  simp only [unmountHook, hlook]

theorem unmountHook_some (hid : Nat) (s : Sys P) (a : ActiveSt)
    (hlook : lookupHook hid s.hooks = some a) :
    unmountHook hid s =
      { s with
        bus := removeListener s.bus (keyString a.key) a.lid a.opts
        hooks := eraseHook hid s.hooks } := by
  simp only [unmountHook, hlook]

/-! Preservation of well-formedness by every transition. -/

theorem lookupHook_mem (hid : Nat) (L : List (Nat × ActiveSt)) (a : ActiveSt)
    (hlook : lookupHook hid L = some a) : (hid, a) ∈ L := by
  obtain ⟨l1, l2, hL, -, -⟩ := lookupHook_some_decomp hid L a hlook
  rw [hL]
  exact List.mem_append_right l1 (List.mem_cons_self _ _)

theorem nodup_append_singleton {α : Type} (l : List α) (x : α) (hl : l.Nodup)
    (hx : x ∉ l) : (l ++ [x]).Nodup := by
  rw [List.nodup_append]
  exact ⟨hl, List.nodup_singleton x,
    fun a ha ha' => hx ((List.mem_singleton.mp ha') ▸ ha)⟩

theorem fst_notmem_eraseHook (hid : Nat) (L : List (Nat × ActiveSt))
    (hnd : (L.map Prod.fst).Nodup) : hid ∉ (eraseHook hid L).map Prod.fst := by
  induction L with
  | nil => simp [eraseHook]
  | cons q qs ih =>
      simp only [List.map_cons, List.nodup_cons] at hnd
      by_cases hq : q.1 = hid
      · simp only [eraseHook, if_pos hq]
        rw [← hq]
        exact hnd.1
      · simp only [eraseHook, if_neg hq, List.map_cons, List.mem_cons]
        rintro (h | h)
        · exact hq h.symm
        · exact ih hnd.2 h

theorem proj_notmem_eraseHook {β : Type} (f : ActiveSt → β) (hid : Nat)
    (L : List (Nat × ActiveSt)) (a : ActiveSt) (hlook : lookupHook hid L = some a)
    (hnd : (L.map (fun q => f q.2)).Nodup) :
    f a ∉ (eraseHook hid L).map (fun q => f q.2) := by
  obtain ⟨l1, l2, hL, -, he⟩ := lookupHook_some_decomp hid L a hlook
  subst hL
  rw [he, List.map_append]
  rw [List.map_append, List.map_cons] at hnd
  have hmid := List.nodup_middle.mpr (List.nodup_middle.mp hnd)
  have hnm : f a ∉ l1.map (fun q => f q.2) ++ l2.map (fun q => f q.2) :=
    (List.nodup_cons.mp (List.nodup_middle.mp hnd)).1
  exact hnm

theorem Wf_mk (bus : List LReg) (cells : List (Nat × Nat)) (log : List (Entry P))
    (hooks : List (Nat × ActiveSt)) (next : Nat)
    (h1 : bus = hooks.map (fun q => regOf q.2))
    (h2 : (hooks.map Prod.fst).Nodup)
    (h3 : (hooks.map (fun q => q.2.lid)).Nodup)
    (h4 : (hooks.map (fun q => q.2.cellId)).Nodup)
    (h5 : ∀ q ∈ hooks, q.2.lid < next ∧ q.2.cellId < next)
    (h6 : ∀ q ∈ hooks, (lookupCell q.2.cellId cells).isSome = true)
    (h7 : ∀ c ∈ cells, c.1 < next) :
    Wf (⟨bus, cells, log, hooks, next⟩ : Sys P) :=
  ⟨h1, h2, h3, h4, h5, h6, h7⟩

theorem Wf_emitFn (k : Key) (p : P) (s : Sys P) (hwf : Wf s) : Wf (emitFn k p s) :=
  hwf

theorem Wf_unmountHook (hid : Nat) (s : Sys P) (hwf : Wf s) : Wf (unmountHook hid s) := by
  cases hlook : lookupHook hid s.hooks with
  | none => rw [unmountHook_none hid s hlook]; exact hwf
  | some a =>
      obtain ⟨hbus, hhid, hlid, hcid, hbnd, hcells, hckeys⟩ := hwf
      rw [unmountHook_some hid s a hlook]
      have hsub := eraseHook_sublist hid s.hooks
      refine Wf_mk _ _ _ _ _ ?_ ?_ ?_ ?_ ?_ ?_ ?_
      · rw [hbus]
        exact removeListener_hookRegs s.hooks hid a hlook hlid
      · exact List.Nodup.sublist (hsub.map Prod.fst) hhid
      · exact List.Nodup.sublist (hsub.map _) hlid
      · exact List.Nodup.sublist (hsub.map _) hcid
      · exact fun q hq => hbnd q (mem_eraseHook hid s.hooks q hq)
      · exact fun q hq => hcells q (mem_eraseHook hid s.hooks q hq)
      · exact hckeys

theorem Wf_hookRender (k : Key) (h : Nat) (o : Opts) (hid : Nat) (s : Sys P)
    (hwf : Wf s) : Wf (hookRender k h o hid s) := by
  have hblt := bus_lid_lt s hwf
  obtain ⟨hbus, hhid, hlid, hcid, hbnd, hcells, hckeys⟩ := hwf
  cases hlook : lookupHook hid s.hooks with
  | none =>
      rw [hookRender_mount k h o hid s hlook]
      have hfresh : ∀ r' ∈ s.bus, r'.lid ≠ s.next + 1 := by
        intro r' hr'
        have := hblt r' hr'
        omega
      have hadd := addListener_of_fresh s.bus ⟨s.next + 1, keyString k, s.next, o⟩ hfresh
      have hnm : ∀ q ∈ s.hooks, q.1 ≠ hid := (lookupHook_eq_none_iff hid s.hooks).mp hlook
      refine Wf_mk _ _ _ _ _ ?_ ?_ ?_ ?_ ?_ ?_ ?_
      · rw [hadd, hbus, List.map_append]
        rfl
      · rw [List.map_append]
        refine nodup_append_singleton _ _ hhid ?_
        intro hmem
        obtain ⟨q, hq, hq1⟩ := List.mem_map.mp hmem
        exact hnm q hq hq1
      · rw [List.map_append]
        refine nodup_append_singleton _ _ hlid ?_
        intro hmem
        obtain ⟨q, hq, hq1⟩ := List.mem_map.mp hmem
        have := (hbnd q hq).1
        simp only at hq1
        omega
      · rw [List.map_append]
        refine nodup_append_singleton _ _ hcid ?_
        intro hmem
        obtain ⟨q, hq, hq1⟩ := List.mem_map.mp hmem
        have := (hbnd q hq).2
        simp only at hq1
        omega
      · intro q hq
        rcases List.mem_append.mp hq with hq | hq
        · have := hbnd q hq
          omega
        · rw [List.mem_singleton] at hq
          subst hq
          simp only
          omega
      · intro q hq
        rcases List.mem_append.mp hq with hq | hq
        · have := hcells q hq
          obtain ⟨v, hv⟩ := Option.isSome_iff_exists.mp this
          rw [lookupCell_append_some _ _ _ v hv]
          rfl
        · rw [List.mem_singleton] at hq
          subst hq
          have hnone : lookupCell s.next s.cells = none := by
            apply lookupCell_eq_none
            intro c hc
            have := hckeys c hc
            omega
          simp only
          rw [lookupCell_append_none _ _ _ hnone]
          simp [lookupCell]
      · intro c hc
        rcases List.mem_append.mp hc with hc | hc
        · have := hckeys c hc
          omega
        · rw [List.mem_singleton] at hc
          subst hc
          simp only
          omega
  | some a =>
      have hmema : (hid, a) ∈ s.hooks := lookupHook_mem hid s.hooks a hlook
      by_cases hcond : a.key = k ∧ objectIs a.opts o = true
      · rw [hookRender_update k h o hid s a hlook hcond.1 hcond.2]
        refine Wf_mk _ _ _ _ _ hbus hhid hlid hcid hbnd ?_ ?_
        · intro q hq
          rw [isSome_lookupCell_setCell]
          exact hcells q hq
        · intro c hc
          have hm : c.1 ∈ (setCell a.cellId h s.cells).map Prod.fst :=
            List.mem_map_of_mem Prod.fst hc
          rw [setCell_map_fst] at hm
          obtain ⟨c', hc', heq⟩ := List.mem_map.mp hm
          have := hckeys c' hc'
          omega
      · rw [hookRender_resub k h o hid s a hlook hcond]
        have hrm : removeListener s.bus (keyString a.key) a.lid a.opts
            = (eraseHook hid s.hooks).map (fun q => regOf q.2) := by
          rw [hbus]
          exact removeListener_hookRegs s.hooks hid a hlook hlid
        have hfresh2 : ∀ r' ∈ (eraseHook hid s.hooks).map (fun q => regOf q.2),
            r'.lid ≠ (regOf ⟨a.cellId, k, o, s.next⟩).lid := by
          intro r' hr'
          obtain ⟨q, hq, rfl⟩ := List.mem_map.mp hr'
          have := (hbnd q (mem_eraseHook hid s.hooks q hq)).1
          simp only [regOf]
          omega
        have hsub := eraseHook_sublist hid s.hooks
        refine Wf_mk _ _ _ _ _ ?_ ?_ ?_ ?_ ?_ ?_ ?_
        · rw [hrm, addListener_of_fresh _ _ hfresh2, List.map_append]
          rfl
        · rw [List.map_append]
          refine nodup_append_singleton _ _ (List.Nodup.sublist (hsub.map Prod.fst) hhid) ?_
          exact fst_notmem_eraseHook hid s.hooks hhid
        · rw [List.map_append]
          refine nodup_append_singleton _ _ (List.Nodup.sublist (hsub.map _) hlid) ?_
          intro hmem
          obtain ⟨q, hq, hq1⟩ := List.mem_map.mp hmem
          have := (hbnd q (mem_eraseHook hid s.hooks q hq)).1
          simp only at hq1
          omega
        · rw [List.map_append]
          refine nodup_append_singleton _ _ (List.Nodup.sublist (hsub.map _) hcid) ?_
          have := proj_notmem_eraseHook (fun x => x.cellId) hid s.hooks a hlook hcid
          simpa using this
        · intro q hq
          rcases List.mem_append.mp hq with hq | hq
          · have := hbnd q (mem_eraseHook hid s.hooks q hq)
            omega
          · rw [List.mem_singleton] at hq
            subst hq
            have h2 : a.cellId < s.next := (hbnd (hid, a) hmema).2
            simp only
            omega
        · intro q hq
          rcases List.mem_append.mp hq with hq | hq
          · rw [isSome_lookupCell_setCell]
            exact hcells q (mem_eraseHook hid s.hooks q hq)
          · rw [List.mem_singleton] at hq
            subst hq
            simp only
            rw [isSome_lookupCell_setCell]
            exact hcells (hid, a) hmema
        · intro c hc
          have hm : c.1 ∈ (setCell a.cellId h s.cells).map Prod.fst :=
            List.mem_map_of_mem Prod.fst hc
          rw [setCell_map_fst] at hm
          obtain ⟨c', hc', heq⟩ := List.mem_map.mp hm
          have := hckeys c' hc'
          omega

theorem Wf_step (s : Sys P) (c : Cmd P) (hwf : Wf s) : Wf (step s c) := by
  cases c with
  | render hid k h o => exact Wf_hookRender k h o hid s hwf
  | unmount hid => exact Wf_unmountHook hid s hwf
  | emit k p => exact Wf_emitFn k p s hwf

theorem Wf_init : Wf (init P) := by
  refine Wf_mk _ _ _ _ _ rfl List.nodup_nil List.nodup_nil List.nodup_nil ?_ ?_ ?_ <;>
    intro q hq <;> simp at hq

theorem Wf_run (s : Sys P) (cs : List (Cmd P)) (hwf : Wf s) : Wf (run s cs) := by
  induction cs generalizing s with
  | nil => exact hwf
  | cons c cs ih => exact ih (step s c) (Wf_step s c hwf)

theorem Wf_of_Reachable (s : Sys P) (h : Reachable s) : Wf s := by
  obtain ⟨cs, rfl⟩ := h
  exact Wf_run (init P) cs Wf_init

/-! Delivery lemmas: what one `dispatchEvent` does to the invocation log. -/

theorem dispatch_append (cells : List (Nat × Nat)) (name : String) (p : P)
    (b1 b2 : List LReg) :
    dispatch cells name p (b1 ++ b2) =
      dispatch cells name p b1 ++ dispatch cells name p b2 := by
  simp [dispatch, List.filter_append, List.filterMap_append]

theorem deliverOne_some (cells : List (Nat × Nat)) (p : P) (r : LReg) (e : Entry P)
    (h : deliverOne cells p r = some e) :
    e.cellId = r.cellId ∧ lookupCell r.cellId cells = some e.handler ∧ e.payload = p := by
  unfold deliverOne at h
  cases hl : lookupCell r.cellId cells with
  | none => rw [hl] at h; simp at h
  | some v =>
      rw [hl] at h
      injection h with h
      subst h
      exact ⟨rfl, rfl, rfl⟩

theorem mem_dispatch (cells : List (Nat × Nat)) (name : String) (p : P) (bus : List LReg)
    (e : Entry P) (he : e ∈ dispatch cells name p bus) :
    ∃ r ∈ bus, r.name = name ∧ e.cellId = r.cellId ∧
      lookupCell r.cellId cells = some e.handler ∧ e.payload = p := by
  obtain ⟨r, hr, hdel⟩ := List.mem_filterMap.mp he
  have hrb := (List.mem_filter.mp hr).1
  have hrn : r.name = name := by
    have := (List.mem_filter.mp hr).2
    simpa using this
  obtain ⟨h1, h2, h3⟩ := deliverOne_some cells p r e hdel
  exact ⟨r, hrb, hrn, h1, h2, h3⟩

theorem dispatch_filter_cell_nil (cells : List (Nat × Nat)) (name : String) (p : P)
    (L : List (Nat × ActiveSt)) (cid : Nat)
    (hno : ∀ q ∈ L, q.2.cellId ≠ cid) :
    (dispatch cells name p (L.map (fun q => regOf q.2))).filter
      (fun e => decide (e.cellId = cid)) = [] := by
  rw [List.filter_eq_nil_iff]
  intro e he
  obtain ⟨r, hr, -, hcid, -, -⟩ := mem_dispatch cells name p _ e he
  obtain ⟨q, hq, rfl⟩ := List.mem_map.mp hr
  have : e.cellId ≠ cid := by
    rw [hcid]
    exact hno q hq
  simpa using this

theorem dispatch_singleton (cells : List (Nat × Nat)) (name : String) (p : P)
    (a : ActiveSt) (hh : Nat) (hcell : lookupCell a.cellId cells = some hh) :
    dispatch cells name p [regOf a] =
      if keyString a.key = name then [⟨a.cellId, hh, p⟩] else [] := by
  by_cases hn : keyString a.key = name
  · simp [dispatch, regOf, hn, deliverOne, hcell]
  · simp [dispatch, regOf, hn]

theorem dispatch_filter_cell (cells : List (Nat × Nat)) (name : String) (p : P)
    (L : List (Nat × ActiveSt)) (hid : Nat) (a : ActiveSt) (hh : Nat)
    (hlook : lookupHook hid L = some a)
    (hcid : (L.map (fun q => q.2.cellId)).Nodup)
    (hcell : lookupCell a.cellId cells = some hh) :
    (dispatch cells name p (L.map (fun q => regOf q.2))).filter
        (fun e => decide (e.cellId = a.cellId)) =
      if keyString a.key = name then [⟨a.cellId, hh, p⟩] else [] := by
  obtain ⟨l1, l2, hL, -, -⟩ := lookupHook_some_decomp hid L a hlook
  subst hL
  rw [List.map_append, List.map_cons] at hcid ⊢
  have hnm : a.cellId ∉ l1.map (fun q => q.2.cellId) ++ l2.map (fun q => q.2.cellId) :=
    (List.nodup_cons.mp (List.nodup_middle.mp hcid)).1
  have hno1 : ∀ q ∈ l1, q.2.cellId ≠ a.cellId := by
    intro q hq heq
    exact hnm (List.mem_append_left _ (List.mem_map.mpr ⟨q, hq, heq⟩))
  have hno2 : ∀ q ∈ l2, q.2.cellId ≠ a.cellId := by
    intro q hq heq
    exact hnm (List.mem_append_right _ (List.mem_map.mpr ⟨q, hq, heq⟩))
  have hcons : (regOf (hid, a).2 :: l2.map (fun q => regOf q.2)) =
      [regOf a] ++ l2.map (fun q => regOf q.2) := rfl
  rw [hcons, dispatch_append, dispatch_append, List.filter_append, List.filter_append]
  rw [dispatch_filter_cell_nil cells name p l1 a.cellId hno1]
  rw [dispatch_filter_cell_nil cells name p l2 a.cellId hno2]
  rw [dispatch_singleton cells name p a hh hcell]
  by_cases hn : keyString a.key = name <;> simp [hn]

theorem dispatch_cons (cells : List (Nat × Nat)) (name : String) (p : P) (r : LReg)
    (bus : List LReg) :
    dispatch cells name p (r :: bus) =
      (if r.name = name then (deliverOne cells p r).toList else []) ++
        dispatch cells name p bus := by
  by_cases hn : r.name = name
  · rw [if_pos hn]
    cases hdel : deliverOne cells p r with
    | none => simp [dispatch, List.filter_cons, hn, List.filterMap_cons, hdel]
    | some e => simp [dispatch, List.filter_cons, hn, List.filterMap_cons, hdel]
  · rw [if_neg hn]
    simp [dispatch, List.filter_cons, hn]

theorem dispatch_all_same_key (cells : List (Nat × Nat)) (p : P) (k : Key)
    (L : List (Nat × ActiveSt))
    (hkeys : ∀ q ∈ L, q.2.key = k)
    (hcells : ∀ q ∈ L, (lookupCell q.2.cellId cells).isSome = true) :
    (dispatch cells (keyString k) p (L.map (fun q => regOf q.2))).length = L.length ∧
    ∀ e ∈ dispatch cells (keyString k) p (L.map (fun q => regOf q.2)), e.payload = p := by
  induction L with
  | nil => simp [dispatch]
  | cons q qs ih =>
      have hk : q.2.key = k := hkeys q (List.mem_cons_self q qs)
      have hc := hcells q (List.mem_cons_self q qs)
      obtain ⟨v, hv⟩ := Option.isSome_iff_exists.mp hc
      obtain ⟨ih1, ih2⟩ := ih (fun q' hq' => hkeys q' (List.mem_cons_of_mem q hq'))
        (fun q' hq' => hcells q' (List.mem_cons_of_mem q hq'))
      rw [List.map_cons, dispatch_cons]
      have hname : (regOf q.2).name = keyString k := by
        simp [regOf, hk]
      rw [if_pos hname]
      have hdel : deliverOne cells p (regOf q.2) = some ⟨q.2.cellId, v, p⟩ := by
        simp [deliverOne, regOf, hv]
      rw [hdel]
      constructor
      · simp [ih1]
      · intro e he
        rcases List.mem_append.mp he with he | he
        · simp only [Option.toList, List.mem_singleton] at he
          subst he
          rfl
        · exact ih2 e he

theorem dispatch_no_drop (cells : List (Nat × Nat)) (name : String) (p : P)
    (bus : List LReg)
    (hcells : ∀ r ∈ bus, (lookupCell r.cellId cells).isSome = true) :
    (dispatch cells name p bus).length =
      bus.countP (fun r => decide (r.name = name)) := by
  induction bus with
  | nil => simp [dispatch]
  | cons r rs ih =>
      rw [dispatch_cons]
      have ih' := ih (fun r' hr' => hcells r' (List.mem_cons_of_mem r hr'))
      have hc := hcells r (List.mem_cons_self r rs)
      obtain ⟨v, hv⟩ := Option.isSome_iff_exists.mp hc
      by_cases hn : r.name = name
      · rw [if_pos hn]
        have hdel : deliverOne cells p r = some ⟨r.cellId, v, p⟩ := by
          simp [deliverOne, hv]
        rw [hdel, List.countP_cons]
        simp [hn, ih']
      · rw [if_neg hn, List.countP_cons]
        simp [hn, ih']

theorem emit_filter_cell (s : Sys P) (hwf : Wf s) (hid : Nat) (a : ActiveSt) (hh : Nat)
    (k : Key) (p : P)
    (hlook : lookupHook hid s.hooks = some a)
    (hcell : lookupCell a.cellId s.cells = some hh) :
    (emitFn k p s).log.filter (fun e => decide (e.cellId = a.cellId)) =
      s.log.filter (fun e => decide (e.cellId = a.cellId)) ++
        (if keyString a.key = keyString k then [⟨a.cellId, hh, p⟩] else []) := by
  show (s.log ++ dispatch s.cells (keyString k) p s.bus).filter _ = _
  rw [List.filter_append, hwf.1]
  congr 1
  exact dispatch_filter_cell s.cells (keyString k) p s.hooks hid a hh hlook
    hwf.2.2.2.1 hcell

theorem Retired_step (cid : Nat) (s : Sys P) (c : Cmd P) (hr : Retired cid s) :
    Retired cid (step s c) := by
  obtain ⟨hlt, hno⟩ := hr
  cases c with
  | render hid k h o =>
      show Retired cid (hookRender k h o hid s)
      cases hlook : lookupHook hid s.hooks with
      | none =>
          rw [hookRender_mount k h o hid s hlook]
          refine ⟨by simp only; omega, ?_⟩
          intro q hq
          rcases List.mem_append.mp hq with hq | hq
          · exact hno q hq
          · rw [List.mem_singleton] at hq
            subst hq
            simp only
            omega
      | some a =>
          by_cases hcond : a.key = k ∧ objectIs a.opts o = true
          · rw [hookRender_update k h o hid s a hlook hcond.1 hcond.2]
            exact ⟨hlt, hno⟩
          · rw [hookRender_resub k h o hid s a hlook hcond]
            refine ⟨by simp only; omega, ?_⟩
            intro q hq
            rcases List.mem_append.mp hq with hq | hq
            · exact hno q (mem_eraseHook hid s.hooks q hq)
            · rw [List.mem_singleton] at hq
              subst hq
              have h1 : a.cellId ≠ cid := hno (hid, a) (lookupHook_mem hid s.hooks a hlook)
              simpa using h1
  | unmount hid =>
      show Retired cid (unmountHook hid s)
      cases hlook : lookupHook hid s.hooks with
      | none => rw [unmountHook_none hid s hlook]; exact ⟨hlt, hno⟩
      | some a =>
          rw [unmountHook_some hid s a hlook]
          exact ⟨hlt, fun q hq => hno q (mem_eraseHook hid s.hooks q hq)⟩
  | emit k p => exact ⟨hlt, hno⟩

theorem log_step_retired (cid : Nat) (s : Sys P) (c : Cmd P) (hwf : Wf s)
    (hr : Retired cid s) :
    ∀ e ∈ (step s c).log, e ∈ s.log ∨ e.cellId ≠ cid := by
  cases c with
  | render hid k h o =>
      intro e he
      left
      cases hlook : lookupHook hid s.hooks with
      | none => rw [show step s (Cmd.render hid k h o) = hookRender k h o hid s from rfl,
          hookRender_mount k h o hid s hlook] at he; exact he
      | some a =>
          by_cases hcond : a.key = k ∧ objectIs a.opts o = true
          · rw [show step s (Cmd.render hid k h o) = hookRender k h o hid s from rfl,
              hookRender_update k h o hid s a hlook hcond.1 hcond.2] at he
            exact he
          · rw [show step s (Cmd.render hid k h o) = hookRender k h o hid s from rfl,
              hookRender_resub k h o hid s a hlook hcond] at he
            exact he
  | unmount hid =>
      intro e he
      left
      cases hlook : lookupHook hid s.hooks with
      | none => rw [show step s (Cmd.unmount hid) = unmountHook hid s from rfl,
          unmountHook_none hid s hlook] at he; exact he
      | some a =>
          rw [show step s (Cmd.unmount hid) = unmountHook hid s from rfl,
            unmountHook_some hid s a hlook] at he
          exact he
  | emit k p =>
      intro e he
      have he' : e ∈ s.log ++ dispatch s.cells (keyString k) p s.bus := he
      rcases List.mem_append.mp he' with h | h
      · exact Or.inl h
      · right
        obtain ⟨r, hrb, -, hcid, -, -⟩ := mem_dispatch s.cells (keyString k) p s.bus e h
        rw [hwf.1] at hrb
        obtain ⟨q, hq, rfl⟩ := List.mem_map.mp hrb
        rw [hcid]
        exact hr.2 q hq

theorem retired_log_run (cid : Nat) (s : Sys P) (cs : List (Cmd P)) (hwf : Wf s)
    (hr : Retired cid s) :
    ∀ e ∈ (run s cs).log, e ∈ s.log ∨ e.cellId ≠ cid := by
  induction cs generalizing s with
  | nil => exact fun e he => Or.inl he
  | cons c cs ih =>
      intro e he
      have hrec := ih (step s c) (Wf_step s c hwf) (Retired_step cid s c hr) e he
      rcases hrec with h | h
      · exact log_step_retired cid s c hwf hr e h
      · exact Or.inr h

theorem retired_after_unmount (hid : Nat) (s : Sys P) (a : ActiveSt) (hwf : Wf s)
    (hlook : lookupHook hid s.hooks = some a) :
    Retired a.cellId (unmountHook hid s) := by
  rw [unmountHook_some hid s a hlook]
  refine ⟨(hwf.2.2.2.2.1 (hid, a) (lookupHook_mem hid s.hooks a hlook)).2, ?_⟩
  intro q hq heq
  have hnm := proj_notmem_eraseHook (fun x => x.cellId) hid s.hooks a hlook hwf.2.2.2.1
  exact hnm (List.mem_map.mpr ⟨q, hq, heq⟩)

/-! Handler updates (re-renders with unchanged key and options) touch only
the handler cell. -/

theorem hookRender_update_self (hid : Nat) (a : ActiveSt) (h : Nat) (s : Sys P)
    (hlook : lookupHook hid s.hooks = some a) :
    hookRender a.key h a.opts hid s = { s with cells := setCell a.cellId h s.cells } :=
  hookRender_update a.key h a.opts hid s a hlook rfl (objectIs_refl a.opts)

theorem run_updates (hid : Nat) (a : ActiveSt) (s : Sys P) (hs : List Nat)
    (hlook : lookupHook hid s.hooks = some a) :
    (run s (hs.map (fun h' => Cmd.render hid a.key h' a.opts))).bus = s.bus ∧
    (run s (hs.map (fun h' => Cmd.render hid a.key h' a.opts))).hooks = s.hooks ∧
    (run s (hs.map (fun h' => Cmd.render hid a.key h' a.opts))).log = s.log ∧
    (run s (hs.map (fun h' => Cmd.render hid a.key h' a.opts))).next = s.next ∧
    (lookupCell a.cellId (run s (hs.map (fun h' => Cmd.render hid a.key h' a.opts))).cells).isSome
      = (lookupCell a.cellId s.cells).isSome := by
  induction hs generalizing s with
  | nil => exact ⟨rfl, rfl, rfl, rfl, rfl⟩
  | cons h' hs ih =>
      have hstep : step s (Cmd.render hid a.key h' a.opts) =
          { s with cells := setCell a.cellId h' s.cells } :=
        hookRender_update_self hid a h' s hlook
      have hrun : run s ((h' :: hs).map (fun x => Cmd.render hid a.key x a.opts)) =
          run { s with cells := setCell a.cellId h' s.cells }
            (hs.map (fun x => Cmd.render hid a.key x a.opts)) := by
        rw [List.map_cons]
        show run (step s (Cmd.render hid a.key h' a.opts)) _ = _
        rw [hstep]
      rw [hrun]
      obtain ⟨i1, i2, i3, i4, i5⟩ := ih { s with cells := setCell a.cellId h' s.cells } hlook
      refine ⟨i1, i2, i3, i4, ?_⟩
      rw [i5, isSome_lookupCell_setCell]

theorem run_updates_last (hid : Nat) (a : ActiveSt) (s : Sys P) (hs : List Nat) (hl : Nat)
    (hlook : lookupHook hid s.hooks = some a)
    (hcell : (lookupCell a.cellId s.cells).isSome = true) :
    (run s ((hs ++ [hl]).map (fun h' => Cmd.render hid a.key h' a.opts))).bus = s.bus ∧
    (run s ((hs ++ [hl]).map (fun h' => Cmd.render hid a.key h' a.opts))).hooks = s.hooks ∧
    (run s ((hs ++ [hl]).map (fun h' => Cmd.render hid a.key h' a.opts))).log = s.log ∧
    (run s ((hs ++ [hl]).map (fun h' => Cmd.render hid a.key h' a.opts))).next = s.next ∧
    lookupCell a.cellId
      (run s ((hs ++ [hl]).map (fun h' => Cmd.render hid a.key h' a.opts))).cells = some hl := by
  obtain ⟨i1, i2, i3, i4, i5⟩ := run_updates hid a s hs hlook
  have hsplit : run s ((hs ++ [hl]).map (fun h' => Cmd.render hid a.key h' a.opts)) =
      step (run s (hs.map (fun h' => Cmd.render hid a.key h' a.opts)))
        (Cmd.render hid a.key hl a.opts) := by
    rw [List.map_append, List.map_cons, List.map_nil]
    show run s _ = _
    unfold run
    rw [List.foldl_append]
    rfl
  have hlook' : lookupHook hid
      (run s (hs.map (fun h' => Cmd.render hid a.key h' a.opts))).hooks = some a := by
    rw [i2]; exact hlook
  have hstep : step (run s (hs.map (fun h' => Cmd.render hid a.key h' a.opts)))
      (Cmd.render hid a.key hl a.opts) =
      { run s (hs.map (fun h' => Cmd.render hid a.key h' a.opts)) with
        cells := setCell a.cellId hl
          (run s (hs.map (fun h' => Cmd.render hid a.key h' a.opts))).cells } :=
    hookRender_update_self hid a hl _ hlook'
  rw [hsplit, hstep]
  refine ⟨i1, i2, i3, i4, ?_⟩
  obtain ⟨v, hv⟩ := Option.isSome_iff_exists.mp (by rw [i5]; exact hcell)
  show lookupCell a.cellId (setCell a.cellId hl _) = some hl
  rw [lookupCell_setCell, if_pos rfl, hv]
  rfl

/-! Stringified names: two symbols share a wire name exactly when their
descriptions coincide, regardless of token identity. -/

theorem keyString_eq_iff (k1 k2 : Key) : keyString k1 = keyString k2 ↔ k1.descr = k2.descr := by
  constructor
  · intro h
    have hd := congrArg String.data h
    simp only [keyString, String.data_append] at hd
    have h1 := List.append_cancel_left (List.append_cancel_right hd)
    cases hk1 : k1.descr
    cases hk2 : k2.descr
    rw [hk1, hk2] at h1
    simp only at h1
    rw [h1]
  · intro h
    simp [keyString, h]

/-! Idempotence of listener removal. -/

theorem countP_eq_zero_eraseP {α : Type} (p : α → Bool) (l : List α)
    (h : l.countP p = 0) : l.eraseP p = l := by
  induction l with
  | nil => rfl
  | cons x xs ih =>
      rw [List.countP_cons] at h
      by_cases hx : p x = true
      · simp [hx] at h
      · have hx' : p x = false := by revert hx; cases p x <;> simp
        simp only [List.eraseP_cons, hx', cond_false, List.cons.injEq, true_and]
        apply ih
        simpa [hx'] using h

theorem eraseP_idem {α : Type} (p : α → Bool) (l : List α) (h : l.countP p ≤ 1) :
    (l.eraseP p).eraseP p = l.eraseP p := by
  induction l with
  | nil => rfl
  | cons x xs ih =>
      by_cases hx : p x = true
      · have hxs : xs.countP p = 0 := by
          rw [List.countP_cons] at h
          simp only [hx, if_true] at h
          omega
        simp only [List.eraseP_cons, hx, cond_true]
        exact countP_eq_zero_eraseP p xs hxs
      · have hx' : p x = false := by revert hx; cases p x <;> simp
        simp only [List.eraseP_cons, hx', cond_false, List.cons.injEq, true_and]
        apply ih
        rw [List.countP_cons] at h
        simpa [hx'] using h

theorem countP_matches_le_one (s : Sys P) (hwf : Wf s) (hid : Nat) (a : ActiveSt)
    (hlook : lookupHook hid s.hooks = some a) :
    s.bus.countP (matchesReg (keyString a.key) a.lid a.opts) ≤ 1 := by
  rw [hwf.1]
  show ((s.hooks.map (fun q => regOf q.2)).countP _) ≤ 1
  obtain ⟨l1, l2, hL, -, -⟩ := lookupHook_some_decomp hid s.hooks a hlook
  have hlid := hwf.2.2.1
  rw [hL] at hlid ⊢
  rw [List.map_append, List.map_cons] at hlid ⊢
  have hnm : a.lid ∉ l1.map (fun q => q.2.lid) ++ l2.map (fun q => q.2.lid) :=
    (List.nodup_cons.mp (List.nodup_middle.mp hlid)).1
  rw [List.countP_append, List.countP_cons]
  have hno1 : (l1.map (fun q => regOf q.2)).countP
      (matchesReg (keyString a.key) a.lid a.opts) = 0 := by
    rw [List.countP_eq_zero]
    intro r hr
    obtain ⟨q, hq, rfl⟩ := List.mem_map.mp hr
    intro habs
    have : q.2.lid = a.lid := by
      have := of_decide_eq_true habs
      exact this.2.1
    exact hnm (List.mem_append_left _ (List.mem_map.mpr ⟨q, hq, this⟩))
  have hno2 : (l2.map (fun q => regOf q.2)).countP
      (matchesReg (keyString a.key) a.lid a.opts) = 0 := by
    rw [List.countP_eq_zero]
    intro r hr
    obtain ⟨q, hq, rfl⟩ := List.mem_map.mp hr
    intro habs
    have : q.2.lid = a.lid := by
      have := of_decide_eq_true habs
      exact this.2.1
    exact hnm (List.mem_append_right _ (List.mem_map.mpr ⟨q, hq, this⟩))
  rw [hno1, hno2]
  simp [matchesReg_regOf_self a]

theorem lookupHook_append_self (hid : Nat) (l : List (Nat × ActiveSt)) (a' : ActiveSt)
    (h : hid ∉ l.map Prod.fst) : lookupHook hid (l ++ [(hid, a')]) = some a' := by
  induction l with
  | nil => simp [lookupHook]
  | cons q qs ih =>
      simp only [List.map_cons, List.mem_cons] at h
      push_neg at h
      simp only [List.cons_append, lookupHook]
      rw [if_neg (fun habs => h.1 habs.symm)]
      exact ih h.2

theorem unmountHook_log (hid : Nat) (s : Sys P) : (unmountHook hid s).log = s.log := by
  cases hlook : lookupHook hid s.hooks with
  | none => rw [unmountHook_none hid s hlook]
  | some a => rw [unmountHook_some hid s a hlook]

/-! The claims. -/

/-- C6: the unsubscribe operation (the effect cleanup's
`removeEventListener` with the registration's own name, closure and
options) is idempotent — removing a listener's registration a second
time is a no-op and yields exactly the bus produced by removing it once,
and it raises no error (it is a total function). -/
theorem claim6_unsubscribe_idem (s : Sys P) (hid : Nat) (a : ActiveSt)
    (hwf : Wf s) (hlook : lookupHook hid s.hooks = some a) :
    removeListener (removeListener s.bus (keyString a.key) a.lid a.opts)
        (keyString a.key) a.lid a.opts =
      removeListener s.bus (keyString a.key) a.lid a.opts :=
  eraseP_idem _ s.bus (countP_matches_le_one s hwf hid a hlook)

/-- Witness for C6: in a state with one mounted listener on the key
`Symbol(a)`, removing its registration twice equals removing it once. -/
theorem claim6_unsubscribe_idem_witness :
    removeListener
        (removeListener (run (init Nat) [Cmd.render 0 (Key.mk 0 "a") 7 Opts.undef]).bus
          (keyString (Key.mk 0 "a")) 1 Opts.undef)
        (keyString (Key.mk 0 "a")) 1 Opts.undef =
      removeListener (run (init Nat) [Cmd.render 0 (Key.mk 0 "a") 7 Opts.undef]).bus
        (keyString (Key.mk 0 "a")) 1 Opts.undef :=
  claim6_unsubscribe_idem (run (init Nat) [Cmd.render 0 (Key.mk 0 "a") 7 Opts.undef])
    0 ⟨0, Key.mk 0 "a", Opts.undef, 1⟩ (by decide) (by decide)

/-- C7: one throwing handler never prevents delivery to the remaining
listeners of the same dispatch — under the transport's per-listener
isolation, the invocations produced are identical for every choice of
throwing handlers, namely exactly those of the plain dispatch. -/
theorem claim7_throw_isolation (cells : List (Nat × Nat)) (throws : Nat → Bool)
    (name : String) (p : P) (bus : List LReg) :
    (dispatchIso cells throws name p bus).1 = dispatch cells name p bus := by
  induction bus with
  | nil => simp [dispatchIso, dispatch]
  | cons r rs ih =>
      rw [dispatch_cons]
      simp only [dispatchIso]
      by_cases hn : r.name = name
      · cases hl : lookupCell r.cellId cells with
        | none =>
            have hdel : deliverOne cells p r = none := by simp [deliverOne, hl]
            simp [hn, hl, hdel, ih]
        | some v =>
            have hdel : deliverOne cells p r = some ⟨r.cellId, v, p⟩ := by
              simp [deliverOne, hl]
            simp [hn, hl, hdel, ih]
      · simp [hn, ih]

/-- C8: the module factory is a pure delegation layer — the pair returned
by `createEventModule` consists of exactly the top-level `emit` and
`useEventListener` state transformers, and the single-key module is the
same pair with its key pre-applied (options omitted); no state of its own
is added. -/
theorem claim8_factory_delegates (P : Type) (k : Key) :
    (createEventModule P).emit = (fun k' p s => emitFn k' p s) ∧
    (createEventModule P).useListener = (fun k' h o hid s => hookRender k' h o hid s) ∧
    (createSimpleEventModule P k).emit = (fun p s => emitFn k p s) ∧
    (createSimpleEventModule P k).useListener =
      (fun h hid s => hookRender k h Opts.undef hid s) :=
  ⟨rfl, rfl, rfl, rfl⟩

/-- C9: in every reachable state, every mounted listener's handler cell
holds a handler, every registration on the bus can be delivered to
(`deliverOne` never hits its silent-drop branch), and hence a dispatch
delivers exactly one invocation per matching registration — no delivery
is ever dropped. -/
theorem claim9_cell_never_empty (s : Sys P) (hreach : Reachable s) :
    (∀ hid a, lookupHook hid s.hooks = some a →
      (lookupCell a.cellId s.cells).isSome = true) ∧
    (∀ p : P, ∀ r ∈ s.bus, deliverOne s.cells p r ≠ none) ∧
    (∀ (name : String) (p : P),
      (dispatch s.cells name p s.bus).length =
        s.bus.countP (fun r => decide (r.name = name))) := by
  have hwf := Wf_of_Reachable s hreach
  refine ⟨?_, ?_, ?_⟩
  · intro hid a hlook
    exact hwf.2.2.2.2.2.1 (hid, a) (lookupHook_mem hid s.hooks a hlook)
  · intro p r hr
    rw [hwf.1] at hr
    obtain ⟨q, hq, rfl⟩ := List.mem_map.mp hr
    have hs := hwf.2.2.2.2.2.1 q hq
    obtain ⟨v, hv⟩ := Option.isSome_iff_exists.mp hs
    simp [deliverOne, regOf, hv]
  · intro name p
    apply dispatch_no_drop
    intro r hr
    rw [hwf.1] at hr
    obtain ⟨q, hq, rfl⟩ := List.mem_map.mp hr
    exact hwf.2.2.2.2.2.1 q hq

/-- Witness for C9: in a reachable state with one listener on
`Symbol(a)` and one on `Symbol(b)`, its cell is filled and a dispatch
under `Symbol(a)` delivers exactly as many invocations as there are
matching registrations. -/
theorem claim9_cell_never_empty_witness :
    (lookupCell 0
      (run (init Nat) [Cmd.render 0 (Key.mk 0 "a") 7 Opts.undef,
        Cmd.render 1 (Key.mk 1 "b") 8 Opts.undef]).cells).isSome = true ∧
    (dispatch
        (run (init Nat) [Cmd.render 0 (Key.mk 0 "a") 7 Opts.undef,
          Cmd.render 1 (Key.mk 1 "b") 8 Opts.undef]).cells
        (keyString (Key.mk 0 "a")) (5 : Nat)
        (run (init Nat) [Cmd.render 0 (Key.mk 0 "a") 7 Opts.undef,
          Cmd.render 1 (Key.mk 1 "b") 8 Opts.undef]).bus).length =
      (run (init Nat) [Cmd.render 0 (Key.mk 0 "a") 7 Opts.undef,
        Cmd.render 1 (Key.mk 1 "b") 8 Opts.undef]).bus.countP
        (fun r => decide (r.name = keyString (Key.mk 0 "a"))) :=
  ⟨(claim9_cell_never_empty
      (run (init Nat) [Cmd.render 0 (Key.mk 0 "a") 7 Opts.undef,
        Cmd.render 1 (Key.mk 1 "b") 8 Opts.undef])
      ⟨[Cmd.render 0 (Key.mk 0 "a") 7 Opts.undef,
        Cmd.render 1 (Key.mk 1 "b") 8 Opts.undef], rfl⟩).1
      0 ⟨0, Key.mk 0 "a", Opts.undef, 1⟩ (by decide),
   (claim9_cell_never_empty
      (run (init Nat) [Cmd.render 0 (Key.mk 0 "a") 7 Opts.undef,
        Cmd.render 1 (Key.mk 1 "b") 8 Opts.undef])
      ⟨[Cmd.render 0 (Key.mk 0 "a") 7 Opts.undef,
        Cmd.render 1 (Key.mk 1 "b") 8 Opts.undef], rfl⟩).2.2
      (keyString (Key.mk 0 "a")) 5⟩

/-- C1: for every key `k` and payload `p`, a listener Active for `k` when
`emit(k, p)` runs receives exactly one call, whose argument is the very
value `p` and whose handler is the currently installed one; and when all
N mounted listeners are on the key `k`, one emit produces exactly N
invocations, each carrying `p`. -/
theorem claim1_emit_exactly_once (s : Sys P) (k : Key) (p : P) (hwf : Wf s) :
    (∀ hid a hh, lookupHook hid s.hooks = some a → a.key = k →
      lookupCell a.cellId s.cells = some hh →
      (emitFn k p s).log.filter (fun e => decide (e.cellId = a.cellId)) =
        s.log.filter (fun e => decide (e.cellId = a.cellId)) ++ [⟨a.cellId, hh, p⟩]) ∧
    ((∀ q ∈ s.hooks, q.2.key = k) →
      (emitFn k p s).log.length = s.log.length + s.hooks.length ∧
      ∀ e ∈ (emitFn k p s).log, e ∈ s.log ∨ e.payload = p) := by
  constructor
  · intro hid a hh hlook hkey hcell
    rw [emit_filter_cell s hwf hid a hh k p hlook hcell, hkey]
    simp
  · intro hkeys
    obtain ⟨hlen, hpay⟩ :=
      dispatch_all_same_key s.cells p k s.hooks hkeys hwf.2.2.2.2.2.1
    constructor
    · show (s.log ++ dispatch s.cells (keyString k) p s.bus).length = _
      rw [List.length_append, hwf.1]
      show _ + (dispatch s.cells (keyString k) p
        (s.hooks.map (fun q => regOf q.2))).length = _
      rw [hlen]
    · intro e he
      have he' : e ∈ s.log ++ dispatch s.cells (keyString k) p s.bus := he
      rcases List.mem_append.mp he' with h | h
      · exact Or.inl h
      · right
        rw [hwf.1] at h
        exact hpay e h

/-- Witness for C1: two listeners mounted on the same key, one emit:
the first listener receives exactly one call carrying the payload, and
the log grows by exactly two entries. -/
theorem claim1_emit_exactly_once_witness :
    ((emitFn (Key.mk 0 "a") (42 : Nat)
        (run (init Nat) [Cmd.render 0 (Key.mk 0 "a") 7 Opts.undef,
          Cmd.render 1 (Key.mk 0 "a") 8 Opts.undef])).log.filter
      (fun e => decide (e.cellId = 0)) =
      (run (init Nat) [Cmd.render 0 (Key.mk 0 "a") 7 Opts.undef,
        Cmd.render 1 (Key.mk 0 "a") 8 Opts.undef]).log.filter
        (fun e => decide (e.cellId = 0)) ++ [⟨0, 7, 42⟩]) ∧
    (emitFn (Key.mk 0 "a") (42 : Nat)
        (run (init Nat) [Cmd.render 0 (Key.mk 0 "a") 7 Opts.undef,
          Cmd.render 1 (Key.mk 0 "a") 8 Opts.undef])).log.length =
      (run (init Nat) [Cmd.render 0 (Key.mk 0 "a") 7 Opts.undef,
        Cmd.render 1 (Key.mk 0 "a") 8 Opts.undef]).log.length + 2 :=
  ⟨(claim1_emit_exactly_once
      (run (init Nat) [Cmd.render 0 (Key.mk 0 "a") 7 Opts.undef,
        Cmd.render 1 (Key.mk 0 "a") 8 Opts.undef])
      (Key.mk 0 "a") 42 (by decide)).1
      0 ⟨0, Key.mk 0 "a", Opts.undef, 1⟩ 7 (by decide) rfl (by decide),
   ((claim1_emit_exactly_once
      (run (init Nat) [Cmd.render 0 (Key.mk 0 "a") 7 Opts.undef,
        Cmd.render 1 (Key.mk 0 "a") 8 Opts.undef])
      (Key.mk 0 "a") 42 (by decide)).2 (by decide)).1⟩

/-- C2: while Active, handler updates (re-renders with the same key and
`Object.is`-equal options) overwrite only the handler cell — the bus, the
hook registry and the log are untouched, so there is no unsubscribe and
no new subscription — and after any sequence of updates ending with
handler `hl`, the next delivery on the listener's key invokes exactly
`hl`, exactly once; handlers superseded before that delivery are never
invoked through this listener. -/
theorem claim2_update_handler (s : Sys P) (hid : Nat) (a : ActiveSt)
    (hs : List Nat) (hl : Nat) (p : P)
    (hwf : Wf s) (hlook : lookupHook hid s.hooks = some a) :
    (run s ((hs ++ [hl]).map (fun h' => Cmd.render hid a.key h' a.opts))).bus = s.bus ∧
    (run s ((hs ++ [hl]).map (fun h' => Cmd.render hid a.key h' a.opts))).hooks = s.hooks ∧
    (run s ((hs ++ [hl]).map (fun h' => Cmd.render hid a.key h' a.opts))).log = s.log ∧
    (emitFn a.key p
        (run s ((hs ++ [hl]).map (fun h' => Cmd.render hid a.key h' a.opts)))).log.filter
        (fun e => decide (e.cellId = a.cellId)) =
      s.log.filter (fun e => decide (e.cellId = a.cellId)) ++ [⟨a.cellId, hl, p⟩] := by
  have hcell : (lookupCell a.cellId s.cells).isSome = true :=
    hwf.2.2.2.2.2.1 (hid, a) (lookupHook_mem hid s.hooks a hlook)
  obtain ⟨i1, i2, i3, i4, i5⟩ := run_updates_last hid a s hs hl hlook hcell
  refine ⟨i1, i2, i3, ?_⟩
  have hwf1 : Wf (run s ((hs ++ [hl]).map (fun h' => Cmd.render hid a.key h' a.opts))) :=
    Wf_run s _ hwf
  have hlook1 : lookupHook hid
      (run s ((hs ++ [hl]).map (fun h' => Cmd.render hid a.key h' a.opts))).hooks =
      some a := by
    rw [i2]; exact hlook
  rw [emit_filter_cell _ hwf1 hid a hl a.key p hlook1 i5, i3]
  simp

/-- Witness for C2: a listener mounted with handler 7, updated to 8 and
then to 9, then one emit: the bus is unchanged by the updates and the
delivery invokes handler 9 exactly once. -/
theorem claim2_update_handler_witness :
    (run (run (init Nat) [Cmd.render 0 (Key.mk 0 "a") 7 Opts.undef])
        (([8] ++ [9]).map (fun h' => Cmd.render 0 (Key.mk 0 "a") h' Opts.undef))).bus =
      (run (init Nat) [Cmd.render 0 (Key.mk 0 "a") 7 Opts.undef]).bus ∧
    (emitFn (Key.mk 0 "a") (42 : Nat)
        (run (run (init Nat) [Cmd.render 0 (Key.mk 0 "a") 7 Opts.undef])
          (([8] ++ [9]).map (fun h' => Cmd.render 0 (Key.mk 0 "a") h' Opts.undef)))).log.filter
        (fun e => decide (e.cellId = 0)) =
      (run (init Nat) [Cmd.render 0 (Key.mk 0 "a") 7 Opts.undef]).log.filter
        (fun e => decide (e.cellId = 0)) ++ [⟨0, 9, 42⟩] :=
  ⟨(claim2_update_handler (run (init Nat) [Cmd.render 0 (Key.mk 0 "a") 7 Opts.undef])
      0 ⟨0, Key.mk 0 "a", Opts.undef, 1⟩ [8] 9 42 (by decide) (by decide)).1,
   (claim2_update_handler (run (init Nat) [Cmd.render 0 (Key.mk 0 "a") 7 Opts.undef])
      0 ⟨0, Key.mk 0 "a", Opts.undef, 1⟩ [8] 9 42 (by decide) (by decide)).2.2.2⟩

/-- C3 counterexample: `Key.mk 0 "a"` and `Key.mk 1 "a"` are distinct key
tokens, yet a listener registered under the second receives an emission
made under the first (both stringify to `"Symbol(a)"`), refuting
"an emission under k1 is never observed by a listener registered under a
distinct token k2 (even one with the same human-readable name)". -/
theorem claim3_counterexample :
    Key.mk 0 "a" ≠ Key.mk 1 "a" ∧
    (emitFn (Key.mk 0 "a") (42 : Nat)
        (run (init Nat) [Cmd.render 5 (Key.mk 1 "a") 7 Opts.undef])).log =
      [⟨0, 7, 42⟩] := by
  constructor
  · decide
  · decide

/-- C3 (amended): delivery is discriminated by the stringified key name,
not by token identity — a listener Active for `a.key` receives an
emission under `k` exactly when the two descriptions (hence the two
`String(key)` wire names) coincide; distinct tokens with distinct names
never cross-talk, while distinct tokens sharing a name silently do. -/
theorem claim3_key_discrimination (s : Sys P) (hid : Nat) (a : ActiveSt) (hh : Nat)
    (k : Key) (p : P) (hwf : Wf s) (hlook : lookupHook hid s.hooks = some a)
    (hcell : lookupCell a.cellId s.cells = some hh) :
    (emitFn k p s).log.filter (fun e => decide (e.cellId = a.cellId)) =
      s.log.filter (fun e => decide (e.cellId = a.cellId)) ++
        (if a.key.descr = k.descr then [⟨a.cellId, hh, p⟩] else []) := by
  rw [emit_filter_cell s hwf hid a hh k p hlook hcell]
  congr 1
  by_cases hd : a.key.descr = k.descr
  · rw [if_pos hd, if_pos ((keyString_eq_iff a.key k).mpr hd)]
  · rw [if_neg hd, if_neg (fun hc => hd ((keyString_eq_iff a.key k).mp hc))]

/-- Witness for C3's amended theorem: a listener under `Key.mk 1 "a"`
receives nothing from an emission under `Key.mk 2 "b"` (distinct names),
and receives the payload from an emission under `Key.mk 0 "a"` (same
name, distinct token). -/
theorem claim3_key_discrimination_witness :
    ((emitFn (Key.mk 2 "b") (42 : Nat)
        (run (init Nat) [Cmd.render 5 (Key.mk 1 "a") 7 Opts.undef])).log.filter
      (fun e => decide (e.cellId = 0)) =
      (run (init Nat) [Cmd.render 5 (Key.mk 1 "a") 7 Opts.undef]).log.filter
        (fun e => decide (e.cellId = 0)) ++
        (if (Key.mk 1 "a").descr = (Key.mk 2 "b").descr then [⟨0, 7, 42⟩] else [])) ∧
    ((emitFn (Key.mk 0 "a") (42 : Nat)
        (run (init Nat) [Cmd.render 5 (Key.mk 1 "a") 7 Opts.undef])).log.filter
      (fun e => decide (e.cellId = 0)) =
      (run (init Nat) [Cmd.render 5 (Key.mk 1 "a") 7 Opts.undef]).log.filter
        (fun e => decide (e.cellId = 0)) ++
        (if (Key.mk 1 "a").descr = (Key.mk 0 "a").descr then [⟨0, 7, 42⟩] else [])) :=
  ⟨claim3_key_discrimination (run (init Nat) [Cmd.render 5 (Key.mk 1 "a") 7 Opts.undef])
      5 ⟨0, Key.mk 1 "a", Opts.undef, 1⟩ 7 (Key.mk 2 "b") 42
      (by decide) (by decide) (by decide),
   claim3_key_discrimination (run (init Nat) [Cmd.render 5 (Key.mk 1 "a") 7 Opts.undef])
      5 ⟨0, Key.mk 1 "a", Opts.undef, 1⟩ 7 (Key.mk 0 "a") 42
      (by decide) (by decide) (by decide)⟩

/-- C5: once a listener has been deactivated (its cleanup ran), no later
emission — under any key, with any payload, after any further sequence of
transitions — ever invokes that listener's handler cell again: every log
entry of every future state either predates the deactivation or belongs
to a different cell. -/
theorem claim5_deactivate_then_emit (s : Sys P) (hid : Nat) (a : ActiveSt)
    (cs : List (Cmd P)) (hwf : Wf s) (hlook : lookupHook hid s.hooks = some a) :
    ∀ e ∈ (run (unmountHook hid s) cs).log, e ∈ s.log ∨ e.cellId ≠ a.cellId := by
  have hwf' : Wf (unmountHook hid s) := Wf_unmountHook hid s hwf
  have hret := retired_after_unmount hid s a hwf hlook
  intro e he
  rcases retired_log_run a.cellId (unmountHook hid s) cs hwf' hret e he with h | h
  · left
    rw [unmountHook_log hid s] at h
    exact h
  · exact Or.inr h

/-- Witness for C5: a listener received `{n:1}` while mounted; after
deactivation an emission of `{n:2}` on its key is not delivered to it. -/
theorem claim5_deactivate_then_emit_witness :
    (⟨0, 7, 2⟩ : Entry Nat) ∉
      (run (unmountHook 0
          (run (init Nat) [Cmd.render 0 (Key.mk 0 "a") 7 Opts.undef,
            Cmd.emit (Key.mk 0 "a") 1]))
        [Cmd.emit (Key.mk 0 "a") 2]).log := by
  intro hmem
  rcases claim5_deactivate_then_emit
      (run (init Nat) [Cmd.render 0 (Key.mk 0 "a") 7 Opts.undef,
        Cmd.emit (Key.mk 0 "a") 1])
      0 ⟨0, Key.mk 0 "a", Opts.undef, 1⟩ [Cmd.emit (Key.mk 0 "a") 2]
      (by decide) (by decide) ⟨0, 7, 2⟩ hmem with h | h
  · exact absurd h (by decide)
  · exact h rfl

/-- C4 counterexample: a listener mounted under `Key.mk 0 "a"` whose key
is changed while Active to the distinct token `Key.mk 1 "a"` (same
description, hence the same wire name): re-subscription does happen, but
emitting once on the old key and once on the new key delivers twice, not
"exactly one delivery in total" as the claim states. -/
theorem claim4_counterexample :
    (run (init Nat)
      [Cmd.render 0 (Key.mk 0 "a") 7 Opts.undef,
       Cmd.render 0 (Key.mk 1 "a") 7 Opts.undef,
       Cmd.emit (Key.mk 0 "a") 10,
       Cmd.emit (Key.mk 1 "a") 11]).log.countP (fun e => decide (e.cellId = 0)) = 2 := by
  decide

/-- C4 (amended): at every reachable instant the bus registrations are in
1:1 correspondence (in fact positionally equal) with the mounted
listeners' registrations, with pairwise distinct listener closures; and a
key change while Active replaces the subscription — provided the old and
new keys also have distinct wire names (distinct descriptions), emitting
once on the old key and once on the new one yields exactly one delivery
in total for that listener.  (When the names collide, both emissions
deliver — the documented cross-talk hazard.) -/
theorem claim4_subscription_correspondence (P : Type) :
    (∀ s : Sys P, Reachable s →
      s.bus = s.hooks.map (fun q => regOf q.2) ∧
      (s.hooks.map (fun q => q.2.lid)).Nodup) ∧
    (∀ (s : Sys P) (hid : Nat) (a : ActiveSt) (k' : Key) (o' : Opts) (h' : Nat) (p q : P),
      Wf s → lookupHook hid s.hooks = some a → a.key.descr ≠ k'.descr →
      (emitFn k' q (emitFn a.key p (hookRender k' h' o' hid s))).log.filter
          (fun e => decide (e.cellId = a.cellId)) =
        s.log.filter (fun e => decide (e.cellId = a.cellId)) ++ [⟨a.cellId, h', q⟩]) := by
  constructor
  · intro s hr
    have hwf := Wf_of_Reachable s hr
    exact ⟨hwf.1, hwf.2.2.1⟩
  · intro s hid a k' o' h' p q hwf hlook hd
    have hkne : a.key ≠ k' := fun habs => hd (congrArg Key.descr habs)
    have hne : ¬(a.key = k' ∧ objectIs a.opts o' = true) := fun habs => hkne habs.1
    have heq := hookRender_resub k' h' o' hid s a hlook hne
    have hwf1 : Wf (hookRender k' h' o' hid s) := Wf_hookRender k' h' o' hid s hwf
    have hlook1 : lookupHook hid (hookRender k' h' o' hid s).hooks =
        some ⟨a.cellId, k', o', s.next⟩ := by
      rw [heq]
      show lookupHook hid (eraseHook hid s.hooks ++ [(hid, _)]) = _
      apply lookupHook_append_self
      exact fst_notmem_eraseHook hid s.hooks hwf.2.1
    have hcell1 : lookupCell a.cellId (hookRender k' h' o' hid s).cells = some h' := by
      rw [heq]
      show lookupCell a.cellId (setCell a.cellId h' s.cells) = some h'
      have hS : (lookupCell a.cellId s.cells).isSome = true :=
        hwf.2.2.2.2.2.1 (hid, a) (lookupHook_mem hid s.hooks a hlook)
      obtain ⟨v, hv⟩ := Option.isSome_iff_exists.mp hS
      rw [lookupCell_setCell, if_pos rfl, hv]
      rfl
    have hlog1 : (hookRender k' h' o' hid s).log = s.log := by rw [heq]
    have hfil1 := emit_filter_cell (hookRender k' h' o' hid s) hwf1 hid
      ⟨a.cellId, k', o', s.next⟩ h' a.key p hlook1 hcell1
    have hkey1 : ¬ keyString (⟨a.cellId, k', o', s.next⟩ : ActiveSt).key =
        keyString a.key := by
      show ¬ keyString k' = keyString a.key
      intro habs
      exact hd (((keyString_eq_iff k' a.key).mp habs).symm)
    rw [if_neg hkey1] at hfil1
    have hwf2 : Wf (emitFn a.key p (hookRender k' h' o' hid s)) := Wf_emitFn _ _ _ hwf1
    have hfil2 := emit_filter_cell (emitFn a.key p (hookRender k' h' o' hid s)) hwf2 hid
      ⟨a.cellId, k', o', s.next⟩ h' k' q hlook1 hcell1
    rw [if_pos rfl] at hfil2
    rw [hfil2]
    show (emitFn a.key p (hookRender k' h' o' hid s)).log.filter _ ++ _ = _
    rw [hfil1, hlog1]
    simp

/-- Witness for C4: one mounted listener; its reachable state satisfies
the correspondence, and after changing its key from `Symbol(a)` to
`Symbol(b)` one emit on each key delivers exactly once in total. -/
theorem claim4_subscription_correspondence_witness :
    ((run (init Nat) [Cmd.render 0 (Key.mk 0 "a") 7 Opts.undef]).bus =
      (run (init Nat) [Cmd.render 0 (Key.mk 0 "a") 7 Opts.undef]).hooks.map
        (fun q => regOf q.2) ∧
      ((run (init Nat) [Cmd.render 0 (Key.mk 0 "a") 7 Opts.undef]).hooks.map
        (fun q => q.2.lid)).Nodup) ∧
    (emitFn (Key.mk 1 "b") (11 : Nat)
        (emitFn (Key.mk 0 "a") (10 : Nat)
          (hookRender (Key.mk 1 "b") 7 Opts.undef 0
            (run (init Nat) [Cmd.render 0 (Key.mk 0 "a") 7 Opts.undef])))).log.filter
        (fun e => decide (e.cellId = 0)) =
      (run (init Nat) [Cmd.render 0 (Key.mk 0 "a") 7 Opts.undef]).log.filter
        (fun e => decide (e.cellId = 0)) ++ [⟨0, 7, 11⟩] :=
  ⟨(claim4_subscription_correspondence Nat).1 _
      ⟨[Cmd.render 0 (Key.mk 0 "a") 7 Opts.undef], rfl⟩,
   (claim4_subscription_correspondence Nat).2 _ 0 ⟨0, Key.mk 0 "a", Opts.undef, 1⟩
     (Key.mk 1 "b") Opts.undef 7 10 11 (by decide) (by decide) (by decide)⟩

/-- C10: re-subscription on option change is decided by reference
identity, not value equality — an options object with a different
reference but identical contents destroys the old registration (its
closure id disappears from the bus) and creates a fresh one (new closure
id `s.next`, same cell, same wire name, the new options object), while an
`Object.is`-equal key and options pair leaves the bus and hook registry
completely unchanged. -/
theorem claim10_options_reference (s : Sys P) (hid : Nat) (a : ActiveSt)
    (h' : Nat) (r r' : Nat) (c : String) (hwf : Wf s)
    (hlook : lookupHook hid s.hooks = some a) :
    (a.opts = Opts.obj r c → r ≠ r' →
      (∀ reg ∈ (hookRender a.key h' (Opts.obj r' c) hid s).bus, reg.lid ≠ a.lid) ∧
      (∃ reg ∈ (hookRender a.key h' (Opts.obj r' c) hid s).bus,
        reg.lid = s.next ∧ reg.name = keyString a.key ∧ reg.cellId = a.cellId ∧
        reg.opts = Opts.obj r' c)) ∧
    (∀ (k : Key) (o : Opts), a.key = k → objectIs a.opts o = true →
      (hookRender k h' o hid s).bus = s.bus ∧
      (hookRender k h' o hid s).hooks = s.hooks) := by
  constructor
  · intro hopts hr
    have hne : ¬(a.key = a.key ∧ objectIs a.opts (Opts.obj r' c) = true) := by
      rintro ⟨-, habs⟩
      rw [hopts] at habs
      simp only [objectIs, decide_eq_true_eq] at habs
      exact hr habs
    have heq := hookRender_resub a.key h' (Opts.obj r' c) hid s a hlook hne
    have hrm : removeListener s.bus (keyString a.key) a.lid a.opts
        = (eraseHook hid s.hooks).map (fun q => regOf q.2) := by
      rw [hwf.1]
      exact removeListener_hookRegs s.hooks hid a hlook hwf.2.2.1
    have hfresh : ∀ reg ∈ (eraseHook hid s.hooks).map (fun q => regOf q.2),
        reg.lid ≠ (regOf ⟨a.cellId, a.key, Opts.obj r' c, s.next⟩).lid := by
      intro reg hreg
      obtain ⟨qq, hq, rfl⟩ := List.mem_map.mp hreg
      have := (hwf.2.2.2.2.1 qq (mem_eraseHook hid s.hooks qq hq)).1
      simp only [regOf]
      omega
    have hbus : (hookRender a.key h' (Opts.obj r' c) hid s).bus =
        (eraseHook hid s.hooks).map (fun q => regOf q.2) ++
          [regOf ⟨a.cellId, a.key, Opts.obj r' c, s.next⟩] := by
      rw [heq]
      show addListener (removeListener s.bus (keyString a.key) a.lid a.opts) _ = _
      rw [hrm, addListener_of_fresh _ _ hfresh]
    constructor
    · intro reg hreg
      rw [hbus] at hreg
      rcases List.mem_append.mp hreg with hm | hm
      · obtain ⟨qq, hq, rfl⟩ := List.mem_map.mp hm
        have hnl := proj_notmem_eraseHook (fun x => x.lid) hid s.hooks a hlook hwf.2.2.1
        intro habs
        exact hnl (List.mem_map.mpr ⟨qq, hq, habs⟩)
      · rw [List.mem_singleton] at hm
        subst hm
        have hlt : a.lid < s.next :=
          (hwf.2.2.2.2.1 (hid, a) (lookupHook_mem hid s.hooks a hlook)).1
        simp only [regOf]
        omega
    · refine ⟨regOf ⟨a.cellId, a.key, Opts.obj r' c, s.next⟩, ?_, rfl, rfl, rfl, rfl⟩
      rw [hbus]
      exact List.mem_append_right _ (List.mem_singleton.mpr rfl)
  · intro k o hk ho
    rw [hookRender_update k h' o hid s a hlook hk ho]
    exact ⟨rfl, rfl⟩

/-- Witness for C10: a listener mounted with options object reference 3;
re-rendering with a value-equal options object of reference 4 removes its
closure (id 1) from the bus, while re-rendering with the same (reference
3) object leaves the bus exactly as it was. -/
theorem claim10_options_reference_witness :
    ((LReg.mk 1 (keyString (Key.mk 0 "a")) 0 (Opts.obj 3 "x")) ∉
      (hookRender (Key.mk 0 "a") 7 (Opts.obj 4 "x") 0
        (run (init Nat) [Cmd.render 0 (Key.mk 0 "a") 7 (Opts.obj 3 "x")])).bus) ∧
    (hookRender (Key.mk 0 "a") 7 (Opts.obj 3 "x") 0
        (run (init Nat) [Cmd.render 0 (Key.mk 0 "a") 7 (Opts.obj 3 "x")])).bus =
      (run (init Nat) [Cmd.render 0 (Key.mk 0 "a") 7 (Opts.obj 3 "x")]).bus := by
  constructor
  · intro hmem
    have hall := ((claim10_options_reference
        (run (init Nat) [Cmd.render 0 (Key.mk 0 "a") 7 (Opts.obj 3 "x")])
        0 ⟨0, Key.mk 0 "a", Opts.obj 3 "x", 1⟩ 7 3 4 "x"
        (by decide) (by decide)).1 rfl (by decide)).1
    exact hall _ hmem rfl
  · exact ((claim10_options_reference
      (run (init Nat) [Cmd.render 0 (Key.mk 0 "a") 7 (Opts.obj 3 "x")])
      0 ⟨0, Key.mk 0 "a", Opts.obj 3 "x", 1⟩ 7 3 4 "x"
      (by decide) (by decide)).2 (Key.mk 0 "a") (Opts.obj 3 "x") rfl (by decide)).1

end EventModule
